import Mathlib

/-!
Verification of the streaming response transcoder of `claude_proxy.py`
(`ClaudeProxy.handle_stream_response`, lines 174-265).

The embedding models the streaming path at the level of decoded text:
each element of `BackendResp.chunks` is the result of
`chunk.decode(errors="ignore")` for one chunk delivered by
`resp.content.iter_any()`.  The code splits every chunk with Python's
`str.splitlines`, filters `data:`-prefixed lines, strips the remainder,
recognises the `[DONE]` sentinel, parses the payload with `json.loads`
(dropping the line on a parse error), and translates the parsed value
into Anthropic-style framed events.  Python-level partial operations
(`dict.get` on a non-dict, `[0]` on an empty list, hashing an
unhashable key) are modelled by `Except String`, the error text naming
the Python exception that the line of code would raise.
-/

namespace ClaudeProxy

/-- JSON values as produced by Python's `json.loads`.  Numbers are
modelled as rationals (`json.loads` yields `int`/`float`; the claims
only ever exercise truthiness of numbers, which agrees).  Objects keep
their key/value pairs in source order; duplicate keys are resolved on
access (last one wins), matching Python dict construction order. -/
inductive JVal where
  | null
  | bool (b : Bool)
  | num (q : Rat)
  | str (s : String)
  | arr (xs : List JVal)
  | obj (fields : List (String × JVal))
deriving Repr

mutual

/-- Structural equality test for `JVal` (the nested occurrences of
`List` prevent `deriving DecidableEq`). -/
def JVal.beq : JVal → JVal → Bool
  | .null, .null => true
  | .bool a, .bool b => a == b
  | .num a, .num b => a == b
  | .str a, .str b => a == b
  | .arr xs, .arr ys => JVal.beqList xs ys
  | .obj fs, .obj gs => JVal.beqFields fs gs
  | _, _ => false

def JVal.beqList : List JVal → List JVal → Bool
  | [], [] => true
  | x :: xs, y :: ys => JVal.beq x y && JVal.beqList xs ys
  | _, _ => false

def JVal.beqFields : List (String × JVal) → List (String × JVal) → Bool
  | [], [] => true
  | (k1, v1) :: fs, (k2, v2) :: gs => k1 == k2 && JVal.beq v1 v2 && JVal.beqFields fs gs
  | _, _ => false

end

mutual

def JVal.beq_iff : ∀ a b : JVal, JVal.beq a b = true ↔ a = b
  | .null, b => by cases b <;> simp [JVal.beq]
  | .bool a, b => by cases b <;> simp [JVal.beq]
  | .num a, b => by cases b <;> simp [JVal.beq]
  | .str a, b => by cases b <;> simp [JVal.beq]
  | .arr xs, b => by
    cases b <;> simp [JVal.beq]
    exact JVal.beqList_iff xs _
  | .obj fs, b => by
    cases b <;> simp [JVal.beq]
    exact JVal.beqFields_iff fs _

def JVal.beqList_iff : ∀ xs ys : List JVal, JVal.beqList xs ys = true ↔ xs = ys
  | [], ys => by cases ys <;> simp [JVal.beqList]
  | x :: xs, ys => by
    cases ys with
    | nil => simp [JVal.beqList]
    | cons y ys =>
      simp only [JVal.beqList, Bool.and_eq_true, List.cons.injEq]
      exact and_congr (JVal.beq_iff x y) (JVal.beqList_iff xs ys)

def JVal.beqFields_iff :
    ∀ fs gs : List (String × JVal), JVal.beqFields fs gs = true ↔ fs = gs
  | [], gs => by cases gs <;> simp [JVal.beqFields]
  | (k1, v1) :: fs, gs => by
    cases gs with
    | nil => simp [JVal.beqFields]
    | cons g gs =>
      obtain ⟨k2, v2⟩ := g
      simp only [JVal.beqFields, Bool.and_eq_true, List.cons.injEq, Prod.mk.injEq,
        beq_iff_eq]
      rw [JVal.beq_iff v1 v2, JVal.beqFields_iff fs gs, and_assoc]

end

instance : DecidableEq JVal := fun a b =>
  decidable_of_iff (JVal.beq a b = true) (JVal.beq_iff a b)

/-- Characters treated as whitespace by Python's `str.strip()` (the
ASCII whitespace characters plus the separator control characters and
the common Unicode spaces; other exotic Unicode spaces do not occur in
the wire protocol). -/
def pyIsSpace (c : Char) : Bool :=
  c = ' ' || c = '\t' || c = '\n' || c = '\x0b' || c = '\x0c' || c = '\r' ||
  c = '\x1c' || c = '\x1d' || c = '\x1e' || c = '\x1f' || c = '\x85' || c = '\xa0' ||
  c = ' ' || c = ' ' || c = '　'

/-- Python `str.strip()` with no arguments: drop whitespace from both ends. -/
def pyStrip (s : String) : String :=
  String.mk (((s.data.dropWhile pyIsSpace).reverse.dropWhile pyIsSpace).reverse)

/-- Python `s.startswith(p)` (case-sensitive prefix test on code points). -/
def pyStartsWith (s p : String) : Bool :=
  p.data.isPrefixOf s.data

/-- Python `s[n:]` (drop the first `n` code points). -/
def pyDropChars (s : String) (n : Nat) : String :=
  String.mk (s.data.drop n)

/-- Line-break characters recognised by Python's `str.splitlines`. -/
def isLineBreak (c : Char) : Bool :=
  c = '\n' || c = '\r' || c = '\x0b' || c = '\x0c' ||
  c = '\x1c' || c = '\x1d' || c = '\x1e' || c = '\x85' ||
  c = ' ' || c = ' '

/-- Worker for `pySplitlines`, one character at a time: `acc` holds the
(reversed) characters of the current line and `afterCR` records that
the previous character was a `'\r'` whose line has already been
emitted, so that an immediately following `'\n'` is absorbed ( `"\r\n"`
counts as a single terminator).  A trailing unterminated line is still
yielded, but an empty trailing remainder is not. -/
def splitlinesGo : Bool → List Char → List Char → List String
  | _, acc, [] => if acc = [] then [] else [String.mk acc.reverse]
  | afterCR, acc, c :: rest =>
    if afterCR && c = '\n' then splitlinesGo false acc rest
    else if c = '\r' then String.mk acc.reverse :: splitlinesGo true [] rest
    else if isLineBreak c then String.mk acc.reverse :: splitlinesGo false [] rest
    else splitlinesGo false (c :: acc) rest

/-- Python `str.splitlines()` (keepends=False). -/
def pySplitlines (s : String) : List String :=
  splitlinesGo false [] s.data

/-- JSON whitespace accepted between tokens by `json.loads`. -/
def jsonWs (c : Char) : Bool :=
  c = ' ' || c = '\t' || c = '\n' || c = '\r'

def skipWs (cs : List Char) : List Char :=
  cs.dropWhile jsonWs

def isDigitChar (c : Char) : Bool :=
  '0' ≤ c && c ≤ '9'

def digVal (c : Char) : Nat :=
  c.toNat - '0'.toNat

def digitsToNat (ds : List Char) : Nat :=
  ds.foldl (fun n c => 10 * n + digVal c) 0

/-- Value of a hexadecimal digit (`0-9`, `a-f`, `A-F`), by code point. -/
def hexVal (c : Char) : Option Nat :=
  let n := c.toNat
  if 48 ≤ n ∧ n ≤ 57 then some (n - 48)
  else if 97 ≤ n ∧ n ≤ 102 then some (n - 87)
  else if 65 ≤ n ∧ n ≤ 70 then some (n - 55)
  else none

/-- Scan the body of a JSON string literal (after the opening quote),
handling the escape sequences accepted by `json.loads`.  Returns the
decoded string and the input after the closing quote. -/
def parseStrAux : List Char → List Char → Option (String × List Char)
  | _, [] => none
  | acc, c :: rest =>
    if c = '"' then some (String.mk acc.reverse, rest)
    else if c = '\\' then
      match rest with
      | [] => none
      | e :: rest2 =>
        if e = '"' then parseStrAux ('"' :: acc) rest2
        else if e = '\\' then parseStrAux ('\\' :: acc) rest2
        else if e = '/' then parseStrAux ('/' :: acc) rest2
        else if e = 'b' then parseStrAux ('\x08' :: acc) rest2
        else if e = 'f' then parseStrAux ('\x0c' :: acc) rest2
        else if e = 'n' then parseStrAux ('\n' :: acc) rest2
        else if e = 'r' then parseStrAux ('\r' :: acc) rest2
        else if e = 't' then parseStrAux ('\t' :: acc) rest2
        else if e = 'u' then
          match rest2 with
          | h1 :: h2 :: h3 :: h4 :: rest3 =>
            match hexVal h1, hexVal h2, hexVal h3, hexVal h4 with
            | some a, some b, some c2, some d =>
              parseStrAux (Char.ofNat (((a * 16 + b) * 16 + c2) * 16 + d) :: acc) rest3
            | _, _, _, _ => none
          | _ => none
        else none
    else if c.toNat < 32 then none
    else parseStrAux (c :: acc) rest

/-- Greedily take decimal digits. -/
def takeDigits : List Char → List Char × List Char
  | [] => ([], [])
  | c :: rest =>
    if isDigitChar c then
      let (ds, r) := takeDigits rest
      (c :: ds, r)
    else ([], c :: rest)

/-- Parse a JSON number (strict grammar: optional minus, integer part
without leading zeros, optional fraction, optional exponent). -/
def parseNumAux (cs : List Char) : Option (Rat × List Char) :=
  let signSplit : Bool × List Char :=
    match cs with
    | '-' :: tl => (true, tl)
    | other => (false, other)
  let neg := signSplit.1
  let cs1 := signSplit.2
  let (ids, cs2) := takeDigits cs1
  if ids = [] then none
  else if ids.length > 1 && ids.head? = some '0' then none
  else
    let intPart : Rat := (digitsToNat ids : Nat)
    let fracStep : Option (Rat × List Char) :=
      match cs2 with
      | '.' :: r =>
        let (fds, r2) := takeDigits r
        if fds = [] then none
        else some (intPart + (digitsToNat fds : Nat) / ((10 : Rat) ^ fds.length), r2)
      | _ => some (intPart, cs2)
    match fracStep with
    | none => none
    | some (base, cs3) =>
      let expStep : Option (Rat × List Char) :=
        match cs3 with
        | 'e' :: r | 'E' :: r =>
          let (esign, r1) :=
            match r with
            | '+' :: rr => (false, rr)
            | '-' :: rr => (true, rr)
            | _ => (false, r)
          let (eds, r2) := takeDigits r1
          if eds = [] then none
          else
            let e := digitsToNat eds
            some (if esign then base / ((10 : Rat) ^ e) else base * ((10 : Rat) ^ e), r2)
        | _ => some (base, cs3)
      match expStep with
      | none => none
      | some (v, cs4) => some (if neg then -v else v, cs4)

mutual

/-- Fuel-based recursive-descent parser for a single JSON value,
following the strict grammar accepted by `json.loads` (the non-standard
`NaN`/`Infinity` extensions are not modelled; they never occur on this
wire). -/
def parseVal : Nat → List Char → Option (JVal × List Char)
  | 0, _ => none
  | fuel + 1, cs =>
    match skipWs cs with
    | [] => none
    | c :: rest =>
      if c = '"' then
        match parseStrAux [] rest with
        | some (s, r) => some (.str s, r)
        | none => none
      else if c = '\x7b' then
        parseObjFields fuel rest
      else if c = '[' then
        parseArrElems fuel rest
      else if c = 't' then
        match rest with
        | 'r' :: 'u' :: 'e' :: r => some (.bool true, r)
        | _ => none
      else if c = 'f' then
        match rest with
        | 'a' :: 'l' :: 's' :: 'e' :: r => some (.bool false, r)
        | _ => none
      else if c = 'n' then
        match rest with
        | 'u' :: 'l' :: 'l' :: r => some (.null, r)
        | _ => none
      else if c = '-' || isDigitChar c then
        match parseNumAux (c :: rest) with
        | some (q, r) => some (.num q, r)
        | none => none
      else none

/-- Array contents after the opening bracket. -/
def parseArrElems : Nat → List Char → Option (JVal × List Char)
  | 0, _ => none
  | fuel + 1, cs =>
    match skipWs cs with
    | ']' :: rest => some (.arr [], rest)
    | cs' =>
      match parseArrItems fuel cs' with
      | some (xs, r) => some (.arr xs, r)
      | none => none

/-- One or more comma-separated array elements followed by the closing
bracket (no trailing comma). -/
def parseArrItems : Nat → List Char → Option (List JVal × List Char)
  | 0, _ => none
  | fuel + 1, cs =>
    match parseVal fuel cs with
    | none => none
    | some (v, r) =>
      match skipWs r with
      | ',' :: r2 =>
        match parseArrItems fuel r2 with
        | some (vs, r3) => some (v :: vs, r3)
        | none => none
      | ']' :: r2 => some ([v], r2)
      | _ => none

/-- Object contents after the opening brace. -/
def parseObjFields : Nat → List Char → Option (JVal × List Char)
  | 0, _ => none
  | fuel + 1, cs =>
    match skipWs cs with
    | '\x7d' :: rest => some (.obj [], rest)
    | cs' =>
      match parseObjItems fuel cs' with
      | some (fs, r) => some (.obj fs, r)
      | none => none

/-- One or more comma-separated `"key": value` pairs followed by the
closing brace (no trailing comma). -/
def parseObjItems : Nat → List Char → Option (List (String × JVal) × List Char)
  | 0, _ => none
  | fuel + 1, cs =>
    match skipWs cs with
    | '"' :: rest =>
      match parseStrAux [] rest with
      | none => none
      | some (k, r) =>
        match skipWs r with
        | ':' :: r2 =>
          match parseVal fuel r2 with
          | none => none
          | some (v, r3) =>
            match skipWs r3 with
            | ',' :: r4 =>
              match parseObjItems fuel r4 with
              | some (fs, r5) => some ((k, v) :: fs, r5)
              | none => none
            | '\x7d' :: r4 => some ([(k, v)], r4)
            | _ => none
        | _ => none
    | _ => none

end

/-- `json.loads`: parse a complete JSON document; any leftover
non-whitespace input is an error.  The fuel bound strictly dominates
the number of parser steps (each step either consumes a character or
is one of a bounded number of bookkeeping steps per character). -/
def json_loads (s : String) : Option JVal :=
  match parseVal (4 * (s.length + 1)) s.data with
  | some (v, rest) => if skipWs rest = [] then some v else none
  | none => none

/-- Python truthiness (`if v:`) of a `json.loads` result. -/
def pyTruthy : JVal → Bool
  | .null => false
  | .bool b => b
  | .num q => q ≠ 0
  | .str s => s ≠ ""
  | .arr xs => !xs.isEmpty
  | .obj fs => !fs.isEmpty

/-- Python `v.get(key, dflt)`: only dicts have `.get`; any other value
raises `AttributeError`.  With duplicate keys the last occurrence wins,
as in a Python dict built by `json.loads`. -/
def pyGet (v : JVal) (key : String) (dflt : JVal) : Except String JVal :=
  match v with
  | .obj fields => .ok ((fields.reverse.lookup key).getD dflt)
  | _ => .error "AttributeError"

/-- Python `v[0]` as applied to `data.get("choices", [{}])`: indexing a
list (`IndexError` when empty), a string (first character, `IndexError`
when empty), a dict (`KeyError`: JSON object keys are strings, never the
integer `0`), or anything else (`TypeError`: not subscriptable). -/
def pyIndexZero : JVal → Except String JVal
  | .arr [] => .error "IndexError"
  | .arr (x :: _) => .ok x
  | .str s =>
    match s.data with
    | [] => .error "IndexError"
    | c :: _ => .ok (.str (String.mk [c]))
  | .obj _ => .error "KeyError"
  | _ => .error "TypeError"

/-- The fixed finish-reason lookup table of the source, in source
order: `{"length":"max_tokens","tool_calls":"tool_use","function_call":"tool_use","stop":"end_turn"}`. -/
def finishTable : List (String × String) :=
  [("length", "max_tokens"), ("tool_calls", "tool_use"),
   ("function_call", "tool_use"), ("stop", "end_turn")]

/-- `finishTable.get(finish, "end_turn")` for a string key. -/
def map_finish_reason (f : String) : String :=
  (finishTable.lookup f).getD "end_turn"

/-- The same dict lookup applied to an arbitrary truthy `finish` value:
a list or dict key is unhashable (`TypeError`); any other non-string
hashable value is simply not among the string keys and falls through to
the `"end_turn"` default. -/
def mapFinishVal : JVal → Except String String
  | .str f => .ok (map_finish_reason f)
  | .arr _ => .error "TypeError"
  | .obj _ => .error "TypeError"
  | _ => .ok "end_turn"

/-- One framed event written to the client sink.  Constant fields of
the wire payloads (the zero usage counters, the literal `index: 0`, the
`text_delta` tag, the `ping` body) are not repeated here; the variable
fields are carried verbatim. -/
inductive OutEvent where
  | errorEvent (body : String)
  | message_start (id : String) (model : String)
  | content_block_start
  | ping
  | content_block_delta (content : JVal)
  | content_block_stop
  | message_delta (stop_reason : String)
  | message_stop
deriving DecidableEq, Repr

/-- How processing one logical line ends: fall through to the next line
(`cont`), set `done = True` and break (`halt`, with `some r` when a
truthy `finish_reason` also updated `final_stop`, `none` for the
`[DONE]` sentinel), or raise a Python exception (`exc`). -/
inductive LineEnd where
  | cont
  | halt (upd : Option String)
  | exc (msg : String)
deriving DecidableEq, Repr

/-- The `if delta := ch.get("delta", {}): if content := delta.get("content"): ...`
block: events written for the delta of one payload, or the Python
exception it raises. -/
def deltaEvents (delta : JVal) : Except String (List OutEvent) :=
  if pyTruthy delta then
    match pyGet delta "content" JVal.null with
    | .error m => .error m
    | .ok content =>
      .ok (if pyTruthy content then [OutEvent.content_block_delta content] else [])
  else .ok []

/-- The `if finish := ch.get("finish_reason"): ...` block: `some r`
when a truthy finish reason was mapped to `r`, `none` otherwise. -/
def finishStep (ch : JVal) : Except String (Option String) :=
  match pyGet ch "finish_reason" JVal.null with
  | .error m => .error m
  | .ok finish =>
    if pyTruthy finish then
      match mapFinishVal finish with
      | .error m => .error m
      | .ok r => .ok (some r)
    else .ok none

/-- Processing of one successfully parsed payload `data` (source lines
243-254): `ch = data.get("choices", [{}])[0]`, then the delta block,
then the finish block.  The written events are returned even when a
later step raises (the delta write precedes the finish lookup). -/
def processData (data : JVal) : List OutEvent × LineEnd :=
  match pyGet data "choices" (JVal.arr [JVal.obj []]) with
  | .error m => ([], .exc m)
  | .ok choices =>
    match pyIndexZero choices with
    | .error m => ([], .exc m)
    | .ok ch =>
      match pyGet ch "delta" (JVal.obj []) with
      | .error m => ([], .exc m)
      | .ok delta =>
        match deltaEvents delta with
        | .error m => ([], .exc m)
        | .ok devs =>
          match finishStep ch with
          | .error m => (devs, .exc m)
          | .ok (some r) => (devs, .halt (some r))
          | .ok none => (devs, .cont)

/-- Processing of one logical line (source lines 232-254): ignore lines
without the `data:` prefix, strip the remainder, recognise the `[DONE]`
sentinel, drop lines whose payload fails `json.loads`, and otherwise
interpret the parsed payload. -/
def processLine (raw : String) : List OutEvent × LineEnd :=
  if ¬ pyStartsWith raw "data:" then ([], .cont)
  else
    let payload := pyStrip (pyDropChars raw 5)
    if payload = "[DONE]" then ([], .halt none)
    else
      match json_loads payload with
      | none => ([], .cont)
      | some data => processData data

/-- Combine the result of one line with the result of the remaining
lines: a `cont` line falls through (its events precede the rest), while
`halt` and `exc` break out of the line loop, discarding the rest. -/
def stepLines (pl : List OutEvent × LineEnd) (r : List OutEvent × LineEnd) :
    List OutEvent × LineEnd :=
  match pl with
  | (evs, .cont) => (evs ++ r.1, r.2)
  | other => other

/-- Run the inner `for raw in text.splitlines():` loop over the lines
of one chunk, breaking at the first `halt` and aborting at the first
exception; events written before the break or raise are kept. -/
def processLines : List String → List OutEvent × LineEnd
  | [] => ([], .cont)
  | raw :: rest => stepLines (processLine raw) (processLines rest)

/-- How the `async for chunk in resp.content.iter_any():` loop ends. -/
inductive RunEnd where
  | completed (done : Bool)
  | raised (msg : String)
deriving DecidableEq, Repr

/-- Accumulated outcome of the chunk loop: events written, the current
`final_stop`, and how the loop ended. -/
structure RunRes where
  evs : List OutEvent
  fs : String
  fin : RunEnd
deriving DecidableEq, Repr

/-- Combine the outcome of one processing step with the outcome `r` of
the remaining input, given the `final_stop` value `fs` in force when
the step ran: `cont` falls through to `r`, `halt` breaks with `done`
set (updating `final_stop` if a finish reason was recorded), and `exc`
propagates the exception. -/
def stepRes (pl : List OutEvent × LineEnd) (fs : String) (r : RunRes) : RunRes :=
  match pl with
  | (evs, .cont) => ⟨evs ++ r.evs, r.fs, r.fin⟩
  | (evs, .halt u) => ⟨evs, u.getD fs, .completed true⟩
  | (evs, .exc m) => ⟨evs, fs, .raised m⟩

/-- The outer chunk loop (source lines 227-257): skip empty chunks,
split each chunk into lines, process them, update `final_stop`, and
break once `done` is set. -/
def runLoop : List String → String → RunRes
  | [], fs => ⟨[], fs, .completed false⟩
  | c :: rest, fs =>
    if c = "" then runLoop rest fs
    else stepRes (processLines (pySplitlines c)) fs (runLoop rest fs)

/-- The backend HTTP response handed to the transcoder: its status,
the body text read on the error path, the decoded texts of the chunks
`iter_any()` delivers, and whether the transport raises when the next
chunk is pulled after those listed. -/
structure BackendResp where
  status : Nat
  body : String
  chunks : List String
  transportError : Bool
deriving DecidableEq, Repr

/-- `message_id = f"msg_{int(time.time()*1000)}"`: the identifier is a
function of the wall-clock millisecond at which the exchange starts. -/
def mkMessageId (nowMs : Nat) : String :=
  "msg_" ++ toString nowMs

/-- The Started sequence written before any payload is consumed:
`message_start`, `content_block_start`, `ping` (source lines 199-221). -/
def startEvents (nowMs : Nat) (model : String) : List OutEvent :=
  [.message_start (mkMessageId nowMs) model, .content_block_start, .ping]

/-- The closing sequence written after the loop (source lines 260-262):
`content_block_stop`, `message_delta` with the recorded stop reason,
`message_stop`. -/
def closingEvents (fs : String) : List OutEvent :=
  [.content_block_stop, .message_delta fs, .message_stop]

/-- `ClaudeProxy.handle_stream_response` (source lines 174-265), as the
sequence of framed events written to the client together with a flag
recording whether a Python exception escaped the handler (in which case
the writes after the raise, in particular the closing sequence, never
happen).  `nowMs` is the wall-clock millisecond sampled at line 199 and
`model` is `request_data["model"]`. -/
def handle_stream_response (nowMs : Nat) (model : String) (resp : BackendResp) :
    List OutEvent × Bool :=
  if resp.status ≠ 200 then ([.errorEvent resp.body], false)
  else
    let r := runLoop resp.chunks "end_turn"
    match r.fin with
    | .raised _ => (startEvents nowMs model ++ r.evs, true)
    | .completed done =>
      if done then
        (startEvents nowMs model ++ r.evs ++ closingEvents r.fs, false)
      else if resp.transportError then
        (startEvents nowMs model ++ r.evs, true)
      else
        (startEvents nowMs model ++ r.evs ++ closingEvents r.fs, false)

/-- The ordered sequence of logical lines the streaming path actually
iterates over: each chunk is split with `splitlines` on its own (empty
chunks are skipped); no partial-line buffer exists between chunks. -/
def logicalLines (chunks : List String) : List String :=
  chunks.flatMap (fun c => if c = "" then [] else pySplitlines c)

/-- Concatenation of the delivered chunk texts: the underlying stream
the chunks reassemble to. -/
def joinChunks : List String → String
  | [] => ""
  | c :: rest => c ++ joinChunks rest

/-- Sample delta object with an extra `role` key besides the fragment,
as OpenAI-style backends commonly send. -/
def sampleDelta : JVal :=
  JVal.obj [("role", JVal.str "assistant"), ("content", JVal.str "Hi")]

/-- Sample first choice carrying both a delta fragment and a
co-present `finish_reason`. -/
def sampleChoice : JVal :=
  JVal.obj [("delta", sampleDelta), ("finish_reason", JVal.str "stop")]

/-- Sample choices list with more than one choice (only the first is
read). -/
def sampleChoices : JVal :=
  JVal.arr [sampleChoice, JVal.obj []]

/-- Sample payload with an extra top-level key besides `choices`. -/
def sampleDeltaPayload : JVal :=
  JVal.obj [("choices", sampleChoices), ("model", JVal.str "x")]

/-! ### Classification predicates used to state the claims -/

def isDeltaEvent : OutEvent → Bool
  | .content_block_delta _ => true
  | _ => false

def isCBStop : OutEvent → Bool
  | .content_block_stop => true
  | _ => false

def isMsgDelta : OutEvent → Bool
  | .message_delta _ => true
  | _ => false

def isMsgStop : OutEvent → Bool
  | .message_stop => true
  | _ => false

/-- Events belonging to the closing sequence. -/
def isClosingType (e : OutEvent) : Bool :=
  isCBStop e || isMsgDelta e || isMsgStop e

def isExc : LineEnd → Bool
  | .exc _ => true
  | _ => false

def isHaltEnd : LineEnd → Bool
  | .halt _ => true
  | _ => false

/-- A line that carried a truthy `finish_reason` (as opposed to the
`[DONE]` sentinel, which halts without updating `final_stop`). -/
def isFinishHalt : LineEnd → Bool
  | .halt (some _) => true
  | _ => false

/-! ### The chunk loop, flattened to its sequence of logical lines -/

/-- Reference driver that processes a flat list of logical lines in
order, with the same halting discipline as the nested chunk/line loops
of the source. -/
def linesRun : List String → String → RunRes
  | [], fs => ⟨[], fs, .completed false⟩
  | raw :: rest, fs => stepRes (processLine raw) fs (linesRun rest fs)

/-! ### Block-lifecycle ordering automaton (claim C3) -/

/-- Automaton state while scanning an output event sequence: whether
`content_block_start` and `content_block_stop` have been seen. -/
structure OrdState where
  startSeen : Bool
  stopSeen : Bool
deriving DecidableEq, Repr

/-- One automaton step: `none` signals an ordering violation.  A
`content_block_delta` is legal only strictly between
`content_block_start` and `content_block_stop`; `content_block_start`
must be unique; `content_block_stop` must follow `content_block_start`
and be unique; `message_stop` must follow `content_block_stop`.  Other
events are unconstrained. -/
def ordStep (st : OrdState) (e : OutEvent) : Option OrdState :=
  match e with
  | .content_block_start => if st.startSeen then none else some ⟨true, st.stopSeen⟩
  | .content_block_delta _ => if st.startSeen && !st.stopSeen then some st else none
  | .content_block_stop => if st.startSeen && !st.stopSeen then some ⟨st.startSeen, true⟩ else none
  | .message_stop => if st.stopSeen then some st else none
  | _ => some st

def ordRun (st : Option OrdState) (evs : List OutEvent) : Option OrdState :=
  evs.foldl (fun s e => s.bind fun st0 => ordStep st0 e) st

/-- The event sequence respects the block-lifecycle total order. -/
def orderingOK (evs : List OutEvent) : Bool :=
  (ordRun (some ⟨false, false⟩) evs).isSome

theorem linesRun_append (ls1 ls2 : List String) (fs : String) :
    linesRun (ls1 ++ ls2) fs = stepRes (processLines ls1) fs (linesRun ls2 fs) := by
  induction ls1 with
  | nil => simp [processLines, linesRun, stepRes]
  | cons raw rest ih =>
    rcases h : processLine raw with ⟨evs, e⟩
    rcases hr : processLines rest with ⟨evs2, e2⟩
    cases e <;> cases e2 <;>
      simp [linesRun, processLines, stepLines, stepRes, h, hr, ih, List.append_assoc]

/-- The chunk loop is the line loop applied to the flattened sequence
of logical lines. -/
theorem runLoop_eq_linesRun (chunks : List String) (fs : String) :
    runLoop chunks fs = linesRun (logicalLines chunks) fs := by
  induction chunks generalizing fs with
  | nil => rfl
  | cons c rest ih =>
    by_cases hc : c = ""
    · simp [runLoop, logicalLines, hc, ih, List.flatMap]
    · have hflat : logicalLines (c :: rest) = pySplitlines c ++ logicalLines rest := by
        simp [logicalLines, hc, List.flatMap]
      rw [hflat, linesRun_append]
      simp [runLoop, hc, ih]

/-! ### Shape lemmas about the events of the loop -/

theorem deltaEvents_all_delta {delta : JVal} {devs : List OutEvent}
    (h : deltaEvents delta = .ok devs) : ∀ e ∈ devs, isDeltaEvent e = true := by
  intro e he
  unfold deltaEvents at h
  split at h
  · rcases hg : pyGet delta "content" JVal.null with m | content <;> rw [hg] at h
    · cases h
    · injection h with h
      subst h
      split at he
      · simp at he
        subst he
        rfl
      · simp at he
  · injection h with h
    subst h
    simp at he

theorem processData_all_delta (data : JVal) :
    ∀ e ∈ (processData data).1, isDeltaEvent e = true := by
  intro e he
  unfold processData at he
  rcases h1 : pyGet data "choices" (JVal.arr [JVal.obj []]) with m | choices <;>
    simp only [h1] at he
  · simp at he
  rcases h2 : pyIndexZero choices with m | ch <;> simp only [h2] at he
  · simp at he
  rcases h3 : pyGet ch "delta" (JVal.obj []) with m | delta <;> simp only [h3] at he
  · simp at he
  rcases h4 : deltaEvents delta with m | devs <;> simp only [h4] at he
  · simp at he
  rcases h5 : finishStep ch with m | u <;> simp only [h5] at he
  · exact deltaEvents_all_delta h4 e he
  · cases u <;> exact deltaEvents_all_delta h4 e he

theorem processLine_all_delta (raw : String) :
    ∀ e ∈ (processLine raw).1, isDeltaEvent e = true := by
  intro e he
  unfold processLine at he
  split at he
  · simp at he
  · dsimp only at he
    split at he
    · simp at he
    · rcases h : json_loads (pyStrip (pyDropChars raw 5)) with _ | data <;>
        simp only [h] at he
      · simp at he
      · exact processData_all_delta data e he

theorem linesRun_all_delta (ls : List String) (fs : String) :
    ∀ e ∈ (linesRun ls fs).evs, isDeltaEvent e = true := by
  induction ls generalizing fs with
  | nil => intro e he; simp [linesRun] at he
  | cons raw rest ih =>
    intro e he
    have hd := processLine_all_delta raw
    rcases h : processLine raw with ⟨evs, le⟩
    rw [h] at hd
    cases le with
    | cont =>
      simp only [linesRun, stepRes, h] at he
      rcases List.mem_append.mp he with he | he
      · exact hd e he
      · exact ih fs e he
    | halt u =>
      simp only [linesRun, stepRes, h] at he
      exact hd e he
    | exc m =>
      simp only [linesRun, stepRes, h] at he
      exact hd e he

/-- If no line raises and some line halts, the loop breaks with
`done = True`. -/
theorem linesRun_done_of_halt (ls : List String) (fs : String)
    (hne : ∀ raw ∈ ls, isExc (processLine raw).2 = false)
    (hh : ∃ raw ∈ ls, isHaltEnd (processLine raw).2 = true) :
    (linesRun ls fs).fin = .completed true := by
  induction ls generalizing fs with
  | nil => simp at hh
  | cons raw rest ih =>
    rcases h : processLine raw with ⟨evs, le⟩
    cases le with
    | cont =>
      have hh' : ∃ r ∈ rest, isHaltEnd (processLine r).2 = true := by
        rcases hh with ⟨r, hr, hhr⟩
        rcases List.mem_cons.mp hr with hr' | hr'
        · subst hr'; rw [h] at hhr; simp [isHaltEnd] at hhr
        · exact ⟨r, hr', hhr⟩
      have hne' : ∀ r ∈ rest, isExc (processLine r).2 = false :=
        fun r hr => hne r (List.mem_cons_of_mem _ hr)
      simp only [linesRun, stepRes, h]
      exact ih fs hne' hh'
    | halt u => simp [linesRun, stepRes, h]
    | exc m =>
      have := hne raw (List.mem_cons_self _ _)
      rw [h] at this
      simp [isExc] at this

/-- If no processed line carries a truthy finish reason (and none
raises), `final_stop` keeps its initial value and the loop never
raises. -/
theorem linesRun_fs_of_no_finish (ls : List String) (fs : String)
    (h : ∀ raw ∈ ls, (processLine raw).2 = .cont ∨ (processLine raw).2 = .halt none) :
    (linesRun ls fs).fs = fs ∧ ∀ m, (linesRun ls fs).fin ≠ .raised m := by
  induction ls generalizing fs with
  | nil => simp [linesRun]
  | cons raw rest ih =>
    have hhead := h raw (List.mem_cons_self _ _)
    have htail : ∀ r ∈ rest, (processLine r).2 = .cont ∨ (processLine r).2 = .halt none :=
      fun r hr => h r (List.mem_cons_of_mem _ hr)
    rcases hp : processLine raw with ⟨evs, le⟩
    rw [hp] at hhead
    cases le with
    | cont => simpa [linesRun, stepRes, hp] using ih fs htail
    | halt u =>
      rcases hhead with h1 | h1
      · cases h1
      · injection h1 with h1
        subst h1
        simp [linesRun, stepRes, hp]
    | exc m => simp at hhead

theorem ordRun_append (st : Option OrdState) (l1 l2 : List OutEvent) :
    ordRun st (l1 ++ l2) = ordRun (ordRun st l1) l2 :=
  List.foldl_append _ _ _ _

theorem ordRun_deltas (evs : List OutEvent) (h : ∀ e ∈ evs, isDeltaEvent e = true) :
    ordRun (some ⟨true, false⟩) evs = some ⟨true, false⟩ := by
  induction evs with
  | nil => rfl
  | cons e rest ih =>
    have he := h e (List.mem_cons_self _ _)
    cases e <;> simp [isDeltaEvent] at he
    simpa [ordRun, ordStep] using ih fun x hx => h x (List.mem_cons_of_mem _ hx)

/-! ### Shape of the handler output in each terminal situation -/

theorem handle_shape_raised (nowMs : Nat) (model : String) (resp : BackendResp)
    {evs : List OutEvent} {fs m : String} (h : resp.status = 200)
    (h2 : runLoop resp.chunks "end_turn" = ⟨evs, fs, .raised m⟩) :
    handle_stream_response nowMs model resp = (startEvents nowMs model ++ evs, true) := by
  simp [handle_stream_response, h, h2]

theorem handle_shape_done (nowMs : Nat) (model : String) (resp : BackendResp)
    {evs : List OutEvent} {fs : String} (h : resp.status = 200)
    (h2 : runLoop resp.chunks "end_turn" = ⟨evs, fs, .completed true⟩) :
    handle_stream_response nowMs model resp =
      (startEvents nowMs model ++ evs ++ closingEvents fs, false) := by
  simp [handle_stream_response, h, h2]

theorem handle_shape_cut (nowMs : Nat) (model : String) (resp : BackendResp)
    {evs : List OutEvent} {fs : String} (h : resp.status = 200)
    (h2 : runLoop resp.chunks "end_turn" = ⟨evs, fs, .completed false⟩)
    (hte : resp.transportError = true) :
    handle_stream_response nowMs model resp = (startEvents nowMs model ++ evs, true) := by
  simp [handle_stream_response, h, h2, hte]

theorem handle_shape_ended (nowMs : Nat) (model : String) (resp : BackendResp)
    {evs : List OutEvent} {fs : String} (h : resp.status = 200)
    (h2 : runLoop resp.chunks "end_turn" = ⟨evs, fs, .completed false⟩)
    (hte : resp.transportError = false) :
    handle_stream_response nowMs model resp =
      (startEvents nowMs model ++ evs ++ closingEvents fs, false) := by
  simp [handle_stream_response, h, h2, hte]

/-! ### Claims -/

/-- Claim C3: for every input payload sequence and every interleaving
of text-fragment and finish-reason payloads, the streaming path never
emits a `content_block_delta` before `content_block_start` nor after
`content_block_stop`; the block-lifecycle events `content_block_start`,
the deltas, `content_block_stop` and `message_stop` are totally ordered
in the output (checked by the `orderingOK` automaton, over all backend
responses, chunkings and transport outcomes). -/
theorem delta_never_outside_block_lifecycle (nowMs : Nat) (model : String)
    (resp : BackendResp) :
    orderingOK (handle_stream_response nowMs model resp).1 = true := by
  by_cases h : resp.status = 200
  · have hflat := runLoop_eq_linesRun resp.chunks "end_turn"
    rcases h2 : runLoop resp.chunks "end_turn" with ⟨evs, fs, fin⟩
    have hdeltas : ∀ e ∈ evs, isDeltaEvent e = true := by
      have hall := linesRun_all_delta (logicalLines resp.chunks) "end_turn"
      rw [← hflat, h2] at hall
      simpa using hall
    have hstart : ordRun (some ⟨false, false⟩) (startEvents nowMs model) =
        some ⟨true, false⟩ := rfl
    have hclose : ∀ f, ordRun (some ⟨true, false⟩) (closingEvents f) =
        some ⟨true, true⟩ := fun f => rfl
    have habsorb : (ordRun (some (⟨true, false⟩ : OrdState)) (evs ++ closingEvents fs)).isSome
        = true := by
      rw [ordRun_append, ordRun_deltas evs hdeltas, hclose]
      rfl
    have hnoclose : (ordRun (some (⟨true, false⟩ : OrdState)) evs).isSome = true := by
      rw [ordRun_deltas evs hdeltas]
      rfl
    cases fin with
    | raised m =>
      rw [orderingOK, handle_shape_raised nowMs model resp h h2, ordRun_append, hstart]
      exact hnoclose
    | completed done =>
      cases done with
      | true =>
        rw [orderingOK, handle_shape_done nowMs model resp h h2, List.append_assoc,
          ordRun_append, hstart]
        exact habsorb
      | false =>
        cases hte : resp.transportError with
        | true =>
          rw [orderingOK, handle_shape_cut nowMs model resp h h2 hte, ordRun_append, hstart]
          exact hnoclose
        | false =>
          rw [orderingOK, handle_shape_ended nowMs model resp h h2 hte, List.append_assoc,
            ordRun_append, hstart]
          exact habsorb
  · simp [handle_stream_response, h, orderingOK, ordRun, ordStep]

/-- A line that records a finish reason is in particular a halting line. -/
theorem isHaltEnd_of_isFinishHalt {le : LineEnd} (h : isFinishHalt le = true) :
    isHaltEnd le = true := by
  cases le with
  | halt u => rfl
  | cont => simp [isFinishHalt] at h
  | exc m => simp [isFinishHalt] at h

theorem not_closing_of_delta {e : OutEvent} (h : isDeltaEvent e = true) :
    isClosingType e = false := by
  cases e <;> first | rfl | simp [isDeltaEvent] at h

theorem delta_not_cbstop {e : OutEvent} (h : isDeltaEvent e = true) :
    isCBStop e = false := by
  cases e <;> first | rfl | simp [isDeltaEvent] at h

theorem delta_not_msgdelta {e : OutEvent} (h : isDeltaEvent e = true) :
    isMsgDelta e = false := by
  cases e <;> first | rfl | simp [isDeltaEvent] at h

theorem delta_not_msgstop {e : OutEvent} (h : isDeltaEvent e = true) :
    isMsgStop e = false := by
  cases e <;> first | rfl | simp [isDeltaEvent] at h

/-- Claim C2: for every input EventPayload sequence containing exactly
one finish-reason payload (and no payload whose processing raises), the
transcoder emits exactly one `content_block_stop`, exactly one
`message_delta` and exactly one `message_stop`; they come after all
other events — in particular after every `content_block_delta` — in
exactly the order `content_block_stop`, `message_delta`,
`message_stop`, and this closing sequence appears exactly once however
finishing was triggered (finish reason, `[DONE]`, or transport end). -/
theorem closing_sequence_unique_and_ordered (nowMs : Nat) (model body : String)
    (chunks : List String) (te : Bool)
    (hne : ∀ raw ∈ logicalLines chunks, isExc (processLine raw).2 = false)
    (hone : (logicalLines chunks).countP
      (fun raw => isFinishHalt (processLine raw).2) = 1) :
    ∃ pre fs,
      (handle_stream_response nowMs model ⟨200, body, chunks, te⟩).1 =
        pre ++ closingEvents fs ∧
      (∀ e ∈ pre, isClosingType e = false) ∧
      (handle_stream_response nowMs model ⟨200, body, chunks, te⟩).1.countP isCBStop = 1 ∧
      (handle_stream_response nowMs model ⟨200, body, chunks, te⟩).1.countP isMsgDelta = 1 ∧
      (handle_stream_response nowMs model ⟨200, body, chunks, te⟩).1.countP isMsgStop = 1 := by
  have hhalt : ∃ raw ∈ logicalLines chunks, isHaltEnd (processLine raw).2 = true := by
    have hpos : 0 < (logicalLines chunks).countP
        (fun raw => isFinishHalt (processLine raw).2) := by omega
    rcases List.countP_pos_iff.mp hpos with ⟨raw, hmem, hp⟩
    exact ⟨raw, hmem, isHaltEnd_of_isFinishHalt hp⟩
  have hflat := runLoop_eq_linesRun chunks "end_turn"
  have hfin := linesRun_done_of_halt (logicalLines chunks) "end_turn" hne hhalt
  rcases h2 : runLoop chunks "end_turn" with ⟨evs, fs, fin⟩
  have hlin : linesRun (logicalLines chunks) "end_turn" = ⟨evs, fs, fin⟩ := by
    rw [← hflat, h2]
  rw [hlin] at hfin
  simp only at hfin
  subst hfin
  have hdeltas : ∀ e ∈ evs, isDeltaEvent e = true := by
    have hall := linesRun_all_delta (logicalLines chunks) "end_turn"
    rw [hlin] at hall
    simpa using hall
  have hout := handle_shape_done nowMs model ⟨200, body, chunks, te⟩ rfl h2
  refine ⟨startEvents nowMs model ++ evs, fs, ?_, ?_, ?_, ?_, ?_⟩
  · rw [hout, List.append_assoc]
  · intro e he
    rcases List.mem_append.mp he with he | he
    · have he' : e = OutEvent.message_start (mkMessageId nowMs) model ∨
          e = OutEvent.content_block_start ∨ e = OutEvent.ping := by
        simpa [startEvents] using he
      rcases he' with rfl | rfl | rfl <;> rfl
    · exact not_closing_of_delta (hdeltas e he)
  · rw [hout]
    have hz : evs.countP isCBStop = 0 :=
      List.countP_eq_zero.mpr fun a ha => by simp [delta_not_cbstop (hdeltas a ha)]
    have hs : (startEvents nowMs model).countP isCBStop = 0 := rfl
    have hc : (closingEvents fs).countP isCBStop = 1 := rfl
    rw [List.countP_append, List.countP_append, hs, hz, hc]
  · rw [hout]
    have hz : evs.countP isMsgDelta = 0 :=
      List.countP_eq_zero.mpr fun a ha => by simp [delta_not_msgdelta (hdeltas a ha)]
    have hs : (startEvents nowMs model).countP isMsgDelta = 0 := rfl
    have hc : (closingEvents fs).countP isMsgDelta = 1 := rfl
    rw [List.countP_append, List.countP_append, hs, hz, hc]
  · rw [hout]
    have hz : evs.countP isMsgStop = 0 :=
      List.countP_eq_zero.mpr fun a ha => by simp [delta_not_msgstop (hdeltas a ha)]
    have hs : (startEvents nowMs model).countP isMsgStop = 0 := rfl
    have hc : (closingEvents fs).countP isMsgStop = 1 := rfl
    rw [List.countP_append, List.countP_append, hs, hz, hc]

/-- Witness for C2: a stream whose single data line carries
`finish_reason: "stop"`. -/
theorem closing_sequence_unique_and_ordered_witness :
    ∃ pre fs,
      (handle_stream_response 0 "m" ⟨200, "",
        ["data: \x7b\"choices\":[\x7b\"finish_reason\":\"stop\"\x7d]\x7d\n"], false⟩).1 =
        pre ++ closingEvents fs ∧
      (∀ e ∈ pre, isClosingType e = false) ∧
      (handle_stream_response 0 "m" ⟨200, "",
        ["data: \x7b\"choices\":[\x7b\"finish_reason\":\"stop\"\x7d]\x7d\n"], false⟩).1.countP
        isCBStop = 1 ∧
      (handle_stream_response 0 "m" ⟨200, "",
        ["data: \x7b\"choices\":[\x7b\"finish_reason\":\"stop\"\x7d]\x7d\n"], false⟩).1.countP
        isMsgDelta = 1 ∧
      (handle_stream_response 0 "m" ⟨200, "",
        ["data: \x7b\"choices\":[\x7b\"finish_reason\":\"stop\"\x7d]\x7d\n"], false⟩).1.countP
        isMsgStop = 1 :=
  closing_sequence_unique_and_ordered 0 "m" ""
    ["data: \x7b\"choices\":[\x7b\"finish_reason\":\"stop\"\x7d]\x7d\n"] false
    (by decide) (by decide)

/-- Claim C7: the finish-reason mapping applied in the streaming path
is the fixed total function sending `"stop" ↦ "end_turn"`,
`"length" ↦ "max_tokens"`, `"tool_calls" ↦ "tool_use"`,
`"function_call" ↦ "tool_use"` and every other string to `"end_turn"`
(being a function, it is deterministic); and if no finish-reason
payload is ever observed before the stream ends, the closing
`message_delta` carries the default `"end_turn"`. -/
theorem finish_reason_mapping :
    map_finish_reason "stop" = "end_turn" ∧
    map_finish_reason "length" = "max_tokens" ∧
    map_finish_reason "tool_calls" = "tool_use" ∧
    map_finish_reason "function_call" = "tool_use" ∧
    (∀ f : String, f ≠ "stop" → f ≠ "length" → f ≠ "tool_calls" → f ≠ "function_call" →
      map_finish_reason f = "end_turn") ∧
    (∀ (nowMs : Nat) (model body : String) (chunks : List String),
      (∀ raw ∈ logicalLines chunks,
        (processLine raw).2 = LineEnd.cont ∨ (processLine raw).2 = LineEnd.halt none) →
      ∃ pre, (handle_stream_response nowMs model ⟨200, body, chunks, false⟩).1 =
        pre ++ closingEvents "end_turn") := by
  refine ⟨rfl, rfl, rfl, rfl, ?_, ?_⟩
  · intro f h1 h2 h3 h4
    have e1 : (f == "length") = false := beq_eq_false_iff_ne.mpr h2
    have e2 : (f == "tool_calls") = false := beq_eq_false_iff_ne.mpr h3
    have e3 : (f == "function_call") = false := beq_eq_false_iff_ne.mpr h4
    have e4 : (f == "stop") = false := beq_eq_false_iff_ne.mpr h1
    simp [map_finish_reason, finishTable, List.lookup, e1, e2, e3, e4]
  · intro nowMs model body chunks hnf
    have hflat := runLoop_eq_linesRun chunks "end_turn"
    have hfs := linesRun_fs_of_no_finish (logicalLines chunks) "end_turn" hnf
    rcases h2 : runLoop chunks "end_turn" with ⟨evs, fs, fin⟩
    have hlin : linesRun (logicalLines chunks) "end_turn" = ⟨evs, fs, fin⟩ := by
      rw [← hflat, h2]
    rw [hlin] at hfs
    obtain ⟨hfs1, hfs2⟩ := hfs
    simp only at hfs1 hfs2
    subst hfs1
    cases fin with
    | raised m => exact absurd rfl (hfs2 m)
    | completed done =>
      cases done with
      | true =>
        refine ⟨startEvents nowMs model ++ evs, ?_⟩
        rw [handle_shape_done nowMs model ⟨200, body, chunks, false⟩ rfl h2,
          List.append_assoc]
      | false =>
        refine ⟨startEvents nowMs model ++ evs, ?_⟩
        rw [handle_shape_ended nowMs model ⟨200, body, chunks, false⟩ rfl h2 rfl,
          List.append_assoc]

/-- Witness for C7: an unmapped finish-reason string, and a stream that
ends with `[DONE]` without ever seeing a finish reason (Scenario B). -/
theorem finish_reason_mapping_witness :
    map_finish_reason "weird" = "end_turn" ∧
    (∃ pre, (handle_stream_response 0 "m" ⟨200, "", ["data: [DONE]\n"], false⟩).1 =
      pre ++ closingEvents "end_turn") :=
  ⟨finish_reason_mapping.2.2.2.2.1 "weird" (by decide) (by decide) (by decide) (by decide),
   finish_reason_mapping.2.2.2.2.2 0 "m" "" ["data: [DONE]\n"] (by decide)⟩

/-- Claim C9: after the first finishing condition (a finish-reason
payload or the `[DONE]` sentinel), the transcoder processes no further
payloads and emits no further events: later lines of the same chunk are
skipped (the inner `break`), and later chunks — whatever data lines
they contain — never influence the result (the outer `break`). -/
theorem first_reason_wins :
    (∀ (l1 : List String) (rawF : String) (l2 : List String),
      (∀ raw ∈ l1, (processLine raw).2 = LineEnd.cont) →
      isHaltEnd (processLine rawF).2 = true →
      processLines (l1 ++ rawF :: l2) = processLines (l1 ++ [rawF])) ∧
    (∀ (chunks extra : List String) (fs : String),
      (runLoop chunks fs).fin = RunEnd.completed true →
      runLoop (chunks ++ extra) fs = runLoop chunks fs) := by
  constructor
  · intro l1 rawF l2 hcont hhalt
    induction l1 with
    | nil =>
      rcases hp : processLine rawF with ⟨evs, le⟩
      rw [hp] at hhalt
      cases le with
      | cont => simp [isHaltEnd] at hhalt
      | halt u => simp [processLines, stepLines, hp]
      | exc m => simp [processLines, stepLines, hp]
    | cons raw rest ih =>
      have hc := hcont raw (List.mem_cons_self _ _)
      rcases hp : processLine raw with ⟨evs, le⟩
      rw [hp] at hc
      simp only at hc
      subst hc
      simp only [List.cons_append, processLines, hp, List.append_eq]
      rw [ih fun r hr => hcont r (List.mem_cons_of_mem _ hr)]
  · intro chunks extra fs
    induction chunks generalizing fs with
    | nil =>
      intro h
      simp [runLoop] at h
    | cons c rest ih =>
      intro h
      by_cases hc : c = ""
      · subst hc
        simp only [List.cons_append, runLoop, if_pos rfl] at h ⊢
        exact ih fs h
      · rcases hp : processLines (pySplitlines c) with ⟨evs, le⟩
        simp only [List.cons_append, runLoop, if_neg hc, hp] at h ⊢
        cases le with
        | cont =>
          simp only [stepRes, List.append_eq] at h ⊢
          rw [ih fs h]
        | halt u => rfl
        | exc m => simp [stepRes] at h

/-- Witness for C9: lines after `[DONE]` in the same chunk are skipped,
and chunks after a finished chunk are ignored. -/
theorem first_reason_wins_witness :
    processLines (["data: x"] ++ "data: [DONE]" ::
      ["data: \x7b\"choices\":[\x7b\"delta\":\x7b\"content\":\"Z\"\x7d\x7d]\x7d"]) =
      processLines (["data: x"] ++ ["data: [DONE]"]) ∧
    runLoop (["data: [DONE]\n"] ++
      ["data: \x7b\"choices\":[\x7b\"delta\":\x7b\"content\":\"Z\"\x7d\x7d]\x7d\n"])
      "end_turn" =
      runLoop ["data: [DONE]\n"] "end_turn" :=
  ⟨first_reason_wins.1 ["data: x"] "data: [DONE]"
      ["data: \x7b\"choices\":[\x7b\"delta\":\x7b\"content\":\"Z\"\x7d\x7d]\x7d"]
      (by decide) (by decide),
   first_reason_wins.2 ["data: [DONE]\n"]
      ["data: \x7b\"choices\":[\x7b\"delta\":\x7b\"content\":\"Z\"\x7d\x7d]\x7d\n"]
      "end_turn" (by decide)⟩

/-- Claim C8: if the backend responds with a non-success (non-200)
HTTP status, the output consists of exactly one `error` event carrying
the upstream response body text — no lifecycle events and no closing
sequence — and no exception escapes. -/
theorem upstream_error_single_error_event (nowMs : Nat) (model body : String)
    (chunks : List String) (te : Bool) (s : Nat) (hs : s ≠ 200) :
    handle_stream_response nowMs model ⟨s, body, chunks, te⟩ =
      ([.errorEvent body], false) := by
  simp [handle_stream_response, hs]

/-- Witness for C8 at a concrete 500 response. -/
theorem upstream_error_single_error_event_witness :
    handle_stream_response 0 "m" ⟨500, "upstream failure", ["data: x"], false⟩ =
      ([.errorEvent "upstream failure"], false) :=
  upstream_error_single_error_event 0 "m" "upstream failure" ["data: x"] false 500
    (by decide)

/-- Counterexample to Claim C4: the transport errors right after a
delta has been forwarded (`transportError = true` with the loop not yet
done); the handler lets the exception escape and the closing sequence
(`content_block_stop`/`message_delta`/`message_stop`) is never
written — the client's framing is left unterminated. -/
theorem transport_error_closing_counterexample :
    handle_stream_response 0 "m" ⟨200, "",
      ["data: \x7b\"choices\":[\x7b\"delta\":\x7b\"content\":\"Hi\"\x7d\x7d]\x7d\n"], true⟩ =
      ([.message_start "msg_0" "m", .content_block_start, .ping,
        .content_block_delta (.str "Hi")], true) ∧
    OutEvent.message_stop ∉ (handle_stream_response 0 "m" ⟨200, "",
      ["data: \x7b\"choices\":[\x7b\"delta\":\x7b\"content\":\"Hi\"\x7d\x7d]\x7d\n"],
      true⟩).1 ∧
    OutEvent.content_block_stop ∉ (handle_stream_response 0 "m" ⟨200, "",
      ["data: \x7b\"choices\":[\x7b\"delta\":\x7b\"content\":\"Hi\"\x7d\x7d]\x7d\n"],
      true⟩).1 := by
  decide

/-- Claim C4 (amended): if the backend transport errors mid-stream
after the Started sequence and before any finishing condition, the
transcoder does NOT emit the closing sequence: the exception propagates
(`.2 = true`) and the output ends with the events written so far — the
closing sequence is only written when the loop ends without an
exception. -/
theorem transport_error_skips_closing (nowMs : Nat) (model body : String)
    (chunks : List String) {evs : List OutEvent} {fs : String}
    (h2 : runLoop chunks "end_turn" = ⟨evs, fs, RunEnd.completed false⟩) :
    handle_stream_response nowMs model ⟨200, body, chunks, true⟩ =
      (startEvents nowMs model ++ evs, true) ∧
    OutEvent.message_stop ∉ (handle_stream_response nowMs model
      ⟨200, body, chunks, true⟩).1 ∧
    OutEvent.content_block_stop ∉ (handle_stream_response nowMs model
      ⟨200, body, chunks, true⟩).1 := by
  have hout := handle_shape_cut nowMs model ⟨200, body, chunks, true⟩ rfl h2 rfl
  have hflat := runLoop_eq_linesRun chunks "end_turn"
  rw [h2] at hflat
  have hdeltas : ∀ e ∈ evs, isDeltaEvent e = true := by
    have hall := linesRun_all_delta (logicalLines chunks) "end_turn"
    rw [← hflat] at hall
    simpa using hall
  refine ⟨hout, ?_, ?_⟩ <;>
    rw [hout] <;>
    intro hmem <;>
    rcases List.mem_append.mp hmem with hm | hm
  · simp [startEvents] at hm
  · have := hdeltas _ hm
    simp [isDeltaEvent] at this
  · simp [startEvents] at hm
  · have := hdeltas _ hm
    simp [isDeltaEvent] at this

/-- Witness for the amended C4: a stream delivering one non-payload
line and then a transport error. -/
theorem transport_error_skips_closing_witness :
    handle_stream_response 0 "m" ⟨200, "", ["data: x"], true⟩ =
      (startEvents 0 "m" ++ [], true) ∧
    OutEvent.message_stop ∉ (handle_stream_response 0 "m"
      ⟨200, "", ["data: x"], true⟩).1 ∧
    OutEvent.content_block_stop ∉ (handle_stream_response 0 "m"
      ⟨200, "", ["data: x"], true⟩).1 :=
  transport_error_skips_closing 0 "m" "" ["data: x"]
    (show runLoop ["data: x"] "end_turn" = ⟨[], "end_turn", RunEnd.completed false⟩
      by decide)

/-- Counterexample to Claim C5: the payload `{"choices":[]}` is valid
JSON but lacks the expected choices structure; `data.get("choices", [{}])[0]`
raises `IndexError`, which is not caught: the stream terminates after
the first delta, the second valid delta is never emitted, and no
closing sequence is written — contradicting "raises no error and
continues processing subsequent lines". -/
theorem structural_failure_counterexample :
    handle_stream_response 0 "m" ⟨200, "",
      ["data: \x7b\"choices\":[\x7b\"delta\":\x7b\"content\":\"A\"\x7d\x7d]\x7d\n" ++
       "data: \x7b\"choices\":[]\x7d\n" ++
       "data: \x7b\"choices\":[\x7b\"delta\":\x7b\"content\":\"B\"\x7d\x7d]\x7d\n"],
      false⟩ =
      ([.message_start "msg_0" "m", .content_block_start, .ping,
        .content_block_delta (.str "A")], true) ∧
    OutEvent.content_block_delta (.str "B") ∉ (handle_stream_response 0 "m" ⟨200, "",
      ["data: \x7b\"choices\":[\x7b\"delta\":\x7b\"content\":\"A\"\x7d\x7d]\x7d\n" ++
       "data: \x7b\"choices\":[]\x7d\n" ++
       "data: \x7b\"choices\":[\x7b\"delta\":\x7b\"content\":\"B\"\x7d\x7d]\x7d\n"],
      false⟩).1 := by
  decide

/-- Claim C5 (amended): a `data:`-prefixed line whose payload is not
valid JSON (fails `json.loads`) produces no event, raises nothing, and
processing continues with the next line exactly as if the line were
absent.  (A payload that IS valid JSON but lacks the expected choices
structure may instead raise and terminate the stream.) -/
theorem invalid_json_line_dropped (raw : String)
    (h1 : pyStartsWith raw "data:" = true)
    (h2 : pyStrip (pyDropChars raw 5) ≠ "[DONE]")
    (h3 : json_loads (pyStrip (pyDropChars raw 5)) = none) :
    processLine raw = ([], LineEnd.cont) ∧
    ∀ l2 : List String, processLines (raw :: l2) = processLines l2 := by
  have hpl : processLine raw = ([], LineEnd.cont) := by
    simp [processLine, h1, h2, h3]
  refine ⟨hpl, fun l2 => ?_⟩
  simp [processLines, stepLines, hpl]

/-- Witness for the amended C5 (Scenario D core): a malformed JSON line
produces nothing and the stream continues with the following valid
delta line. -/
theorem invalid_json_line_dropped_witness :
    processLine "data: \x7boops" = ([], LineEnd.cont) ∧
    processLines ("data: \x7boops" ::
        ["data: \x7b\"choices\":[\x7b\"delta\":\x7b\"content\":\"B\"\x7d\x7d]\x7d"]) =
      processLines ["data: \x7b\"choices\":[\x7b\"delta\":\x7b\"content\":\"B\"\x7d\x7d]\x7d"] :=
  ⟨(invalid_json_line_dropped "data: \x7boops" (by decide) (by decide) (by decide)).1,
   (invalid_json_line_dropped "data: \x7boops" (by decide) (by decide) (by decide)).2
     ["data: \x7b\"choices\":[\x7b\"delta\":\x7b\"content\":\"B\"\x7d\x7d]\x7d"]⟩

/-- Counterexample to Claim C6: a payload whose first choice carries
the empty-string fragment `""` in its delta produces NO
`content_block_delta` event (the walrus `if content := delta.get("content"):`
is falsy on `""`), so the "including the empty string" part of the
claim fails. -/
theorem empty_fragment_counterexample :
    handle_stream_response 0 "m" ⟨200, "",
      ["data: \x7b\"choices\":[\x7b\"delta\":\x7b\"content\":\"\"\x7d\x7d]\x7d\n"],
      false⟩ =
      ([.message_start "msg_0" "m", .content_block_start, .ping] ++
        closingEvents "end_turn", false) ∧
    (handle_stream_response 0 "m" ⟨200, "",
      ["data: \x7b\"choices\":[\x7b\"delta\":\x7b\"content\":\"\"\x7d\x7d]\x7d\n"],
      false⟩).1.countP isDeltaEvent = 0 := by
  decide

/-- Claim C6 (amended): for EVERY payload whose first choice carries a
NONEMPTY text fragment in its delta — whatever other keys the delta,
the choice or the payload carry, a co-present `finish_reason` and
further choices included — the events written for that payload are
exactly one `content_block_delta` carrying exactly that fragment (no
re-encoding, no trimming); and fragments are emitted in arrival order:
over any lines that fall through, the run's events are the per-line
events concatenated in input order.  (An empty-string fragment emits no
event — see the counterexample.)  The payload is constrained only
through the code's own accessor chain
`data.get("choices", [{}])[0]` / `.get("delta", {})` / `.get("content")`. -/
theorem nonempty_fragment_exact_delta :
    (∀ (data choices ch delta : JVal) (s : String),
      pyGet data "choices" (JVal.arr [JVal.obj []]) = .ok choices →
      pyIndexZero choices = .ok ch →
      pyGet ch "delta" (JVal.obj []) = .ok delta →
      pyGet delta "content" JVal.null = .ok (JVal.str s) →
      s ≠ "" →
      (processData data).1 = [OutEvent.content_block_delta (JVal.str s)]) ∧
    (∀ (ls : List String) (fs : String),
      (∀ raw ∈ ls, (processLine raw).2 = LineEnd.cont) →
      (linesRun ls fs).evs = ls.flatMap fun raw => (processLine raw).1) := by
  constructor
  · intro data choices ch delta s h1 h2 h3 h4 hs
    have hdt : pyTruthy delta = true := by
      cases delta with
      | obj fields =>
        cases fields with
        | nil => simp [pyGet, List.lookup] at h4
        | cons f fs => rfl
      | null => simp [pyGet] at h4
      | bool b => simp [pyGet] at h4
      | num q => simp [pyGet] at h4
      | str t => simp [pyGet] at h4
      | arr xs => simp [pyGet] at h4
    have hde : deltaEvents delta = .ok [OutEvent.content_block_delta (JVal.str s)] := by
      unfold deltaEvents
      rw [if_pos hdt, h4]
      simp [pyTruthy, hs]
    simp only [processData, h1, h2, h3, hde]
    rcases finishStep ch with m | u
    · rfl
    · rcases u with _ | r <;> rfl
  · intro ls fs hcont
    induction ls with
    | nil => simp [linesRun]
    | cons raw rest ih =>
      have hc := hcont raw (List.mem_cons_self _ _)
      rcases hp : processLine raw with ⟨evs, le⟩
      rw [hp] at hc
      simp only at hc
      subst hc
      simp only [linesRun, stepRes, hp, List.flatMap_cons]
      rw [ih fun r hr => hcont r (List.mem_cons_of_mem _ hr)]

/-- Witness for the amended C6: a payload whose delta also carries a
`role` key, whose first choice also carries `finish_reason: "stop"`,
with a second choice and an extra top-level key present — the events
for the payload are exactly the one delta with the fragment verbatim;
and a two-line all-delta stream emits its fragments in arrival order. -/
theorem nonempty_fragment_exact_delta_witness :
    (processData sampleDeltaPayload).1 =
      [OutEvent.content_block_delta (JVal.str "Hi")] ∧
    (linesRun ["data: \x7b\"choices\":[\x7b\"delta\":\x7b\"content\":\"A\"\x7d\x7d]\x7d",
        "data: \x7b\"choices\":[\x7b\"delta\":\x7b\"content\":\"B\"\x7d\x7d]\x7d"]
      "end_turn").evs =
      ["data: \x7b\"choices\":[\x7b\"delta\":\x7b\"content\":\"A\"\x7d\x7d]\x7d",
        "data: \x7b\"choices\":[\x7b\"delta\":\x7b\"content\":\"B\"\x7d\x7d]\x7d"].flatMap
        (fun raw => (processLine raw).1) :=
  ⟨nonempty_fragment_exact_delta.1 sampleDeltaPayload sampleChoices sampleChoice
      sampleDelta "Hi" rfl rfl rfl rfl (by decide),
   nonempty_fragment_exact_delta.2
      ["data: \x7b\"choices\":[\x7b\"delta\":\x7b\"content\":\"A\"\x7d\x7d]\x7d",
        "data: \x7b\"choices\":[\x7b\"delta\":\x7b\"content\":\"B\"\x7d\x7d]\x7d"]
      "end_turn" (by decide)⟩

/-- Counterexample to Claim C10: two distinct streamed exchanges (the
backend responses differ) started in the same wall-clock millisecond
carry the SAME locally generated message identifier `msg_1000` in their
`message_start` events — identifiers are not unique per process run. -/
theorem message_id_collision_counterexample :
    ((⟨200, "", [], false⟩ : BackendResp) ≠ ⟨200, "", ["data: [DONE]"], false⟩) ∧
    (handle_stream_response 1000 "m" ⟨200, "", [], false⟩).1.head? =
      some (OutEvent.message_start "msg_1000" "m") ∧
    (handle_stream_response 1000 "m" ⟨200, "", ["data: [DONE]"], false⟩).1.head? =
      some (OutEvent.message_start "msg_1000" "m") := by
  decide

/-- Claim C10 (amended): the message identifier is `msg_` followed by
the start wall-clock millisecond and nothing else — it is determined
solely by the timestamp, so exchanges started in distinct milliseconds
get distinct identifiers while exchanges started within the same
millisecond share one. -/
theorem message_id_determined_by_timestamp (nowMs : Nat) (model : String)
    (resp : BackendResp) (h : resp.status = 200) :
    (handle_stream_response nowMs model resp).1.head? =
      some (OutEvent.message_start (mkMessageId nowMs) model) := by
  rcases h2 : runLoop resp.chunks "end_turn" with ⟨evs, fs, fin⟩
  cases fin with
  | raised m =>
    rw [handle_shape_raised nowMs model resp h h2]
    simp [startEvents]
  | completed done =>
    cases done with
    | true =>
      rw [handle_shape_done nowMs model resp h h2]
      simp [startEvents]
    | false =>
      cases hte : resp.transportError with
      | true =>
        rw [handle_shape_cut nowMs model resp h h2 hte]
        simp [startEvents]
      | false =>
        rw [handle_shape_ended nowMs model resp h h2 hte]
        simp [startEvents]

/-- Witness for the amended C10. -/
theorem message_id_determined_by_timestamp_witness :
    (handle_stream_response 0 "m" ⟨200, "", [], false⟩).1.head? =
      some (OutEvent.message_start (mkMessageId 0) "m") :=
  message_id_determined_by_timestamp 0 "m" ⟨200, "", [], false⟩ rfl

/-- Splitting distributes over concatenation at a `'\n'` boundary: the
characters before the terminator cannot interact with those after it
(the invariant `b = true → acc = []` holds at every reachable state of
the scanner). -/
theorem splitlinesGo_append (cs1 : List Char) : ∀ (b : Bool) (acc cs2 : List Char),
    (b = true → acc = []) →
    splitlinesGo b acc (cs1 ++ '\n' :: cs2) =
      splitlinesGo b acc (cs1 ++ ['\n']) ++ splitlinesGo false [] cs2 := by
  induction cs1 with
  | nil =>
    intro b acc cs2 hb
    cases b with
    | false => simp [splitlinesGo, isLineBreak]
    | true =>
      have hacc := hb rfl
      subst hacc
      simp [splitlinesGo]
  | cons c cs1 ih =>
    intro b acc cs2 hb
    simp only [List.cons_append]
    by_cases hcn : c = '\n'
    · subst hcn
      cases b with
      | true =>
        have hacc := hb rfl
        subst hacc
        simp only [splitlinesGo, Bool.true_and, decide_True, if_pos]
        exact ih false [] cs2 (fun _ => rfl)
      | false =>
        simp only [splitlinesGo, Bool.false_and, Bool.false_eq_true, if_neg,
          not_false_iff, isLineBreak]
        simp only [show ('\n' : Char) = '\r' ↔ False by simp, if_false]
        rw [ih false [] cs2 (fun _ => rfl)]
        simp [isLineBreak, List.cons_append]
    · by_cases hcr : c = '\r'
      · subst hcr
        have h1 : (b && ('\r' = '\n' : Bool)) = false := by simp
        simp only [splitlinesGo, h1, Bool.false_eq_true, if_neg, not_false_iff, if_pos]
        rw [ih true [] cs2 (fun _ => rfl)]
        simp
      · by_cases hbrk : isLineBreak c
        · have h1 : (b && (c = '\n' : Bool)) = false := by simp [hcn]
          simp only [splitlinesGo, h1, hcr, hbrk]
          rw [ih false [] cs2 (fun _ => rfl)]
          simp
        · have h1 : (b && (c = '\n' : Bool)) = false := by simp [hcn]
          simp only [splitlinesGo, h1, hcr, hbrk]
          exact ih false (c :: acc) cs2 (fun h => nomatch h)

/-- `splitlines` distributes over appending after a chunk that ends in
`"\n"`. -/
theorem pySplitlines_newline_append (a b : String) :
    pySplitlines ((a ++ "\n") ++ b) = pySplitlines (a ++ "\n") ++ pySplitlines b := by
  unfold pySplitlines
  have h1 : ((a ++ "\n") ++ b).data = a.data ++ '\n' :: b.data := by
    simp [String.data_append]
  have h2 : (a ++ "\n").data = a.data ++ ['\n'] := by
    simp [String.data_append]
  rw [h1, h2]
  exact splitlinesGo_append a.data false [] b.data (fun h => nomatch h)

/-- When every chunk ends exactly at a line boundary, the per-chunk
splitting performed by the streaming path coincides with splitting the
reassembled stream. -/
theorem logicalLines_eq_splitlines_join : ∀ chunks : List String,
    (∀ c ∈ chunks, c = "" ∨ ∃ s, c = s ++ "\n") →
    logicalLines chunks = pySplitlines (joinChunks chunks) := by
  intro chunks
  induction chunks with
  | nil => intro _; rfl
  | cons c rest ih =>
    intro hyp
    have hc := hyp c (List.mem_cons_self _ _)
    have hrest := fun x hx => hyp x (List.mem_cons_of_mem _ hx)
    rcases hc with hc | ⟨s, hc⟩
    · subst hc
      have hjoin : joinChunks ("" :: rest) = joinChunks rest := rfl
      rw [hjoin, ← ih hrest]
      simp [logicalLines]
    · subst hc
      have hne : s ++ "\n" ≠ "" := by
        intro h
        have := congrArg String.data h
        simp [String.data_append] at this
      have hflat : logicalLines ((s ++ "\n") :: rest) =
          pySplitlines (s ++ "\n") ++ logicalLines rest := by
        simp [logicalLines, hne]
      rw [hflat, ih hrest]
      have hjoin : joinChunks ((s ++ "\n") :: rest) = (s ++ "\n") ++ joinChunks rest :=
        rfl
      rw [hjoin, pySplitlines_newline_append]

/-- Counterexample to Claim C1: two chunkings of the same bytes, one
split in the middle of the line, yield different LogicalLine sequences:
no partial-line buffer exists, so `"ab"` is processed as a line of its
own. -/
theorem frame_reader_chunk_boundary_counterexample :
    joinChunks ["ab", "c\n"] = joinChunks ["abc\n"] ∧
    logicalLines ["ab", "c\n"] ≠ logicalLines ["abc\n"] := by
  decide

/-- Claim C1 (amended): the streaming path produces an identical
sequence of LogicalLines for two chunkings of the same underlying bytes
PROVIDED every chunk ends exactly at a `"\n"` line boundary; splits in
the middle of a line are NOT buffered (each chunk is split on its own),
so they may change the sequence. -/
theorem frame_reader_line_aligned_independence (chunks1 chunks2 : List String)
    (h1 : ∀ c ∈ chunks1, c = "" ∨ ∃ s, c = s ++ "\n")
    (h2 : ∀ c ∈ chunks2, c = "" ∨ ∃ s, c = s ++ "\n")
    (hj : joinChunks chunks1 = joinChunks chunks2) :
    logicalLines chunks1 = logicalLines chunks2 := by
  rw [logicalLines_eq_splitlines_join chunks1 h1,
    logicalLines_eq_splitlines_join chunks2 h2, hj]

/-- Witness for the amended C1: the same two lines delivered as two
line-aligned chunks or as one chunk. -/
theorem frame_reader_line_aligned_independence_witness :
    logicalLines ["a\n", "b\n"] = logicalLines ["a\nb\n"] :=
  frame_reader_line_aligned_independence ["a\n", "b\n"] ["a\nb\n"]
    (by
      intro c hc
      rcases List.mem_cons.mp hc with rfl | hc
      · exact Or.inr ⟨"a", by decide⟩
      rcases List.mem_cons.mp hc with rfl | hc
      · exact Or.inr ⟨"b", by decide⟩
      simp at hc)
    (by
      intro c hc
      rcases List.mem_cons.mp hc with rfl | hc
      · exact Or.inr ⟨"a\nb", by decide⟩
      simp at hc)
    (by decide)

end ClaudeProxy
